import Mathlib

/-!
Shallow embedding of `src/batch_enrollment_manager.py` (batch-enrollment-manager).

The program reads a pending-queue CSV store (`enrollment.txt`, header row
`photo_path,timestamp,id`), resolves photo paths against a base photo
directory, deduplicates rows by card identifier (a Python dict build:
last value wins, first-seen key position retained), presents each entry
in a modal window where the operator submits an NRIC or discards, appends
submitted pairs to the records store (`persons.txt`), and finally rewrites
the pending store to header-only.

Modelling conventions:
- a delimited text store is a `List Row`, each `Row` a list of cell strings
  (the csv layer's quoting is below the abstraction level of the claims);
- an absent or unreadable store is `none : Option (List Row)`;
- `csv.DictReader` semantics: fieldnames are taken from the first row, blank
  rows are skipped, a short row has its missing fields filled with `None`
  (restval), extra cells beyond the fieldnames are dropped (they go under the
  `None` restkey, which this program never reads), and a duplicated header
  name keeps the last cell (dict built from `zip(fieldnames, row)`);
- a raised Python exception is `Except.error` of a `PyError`;
- `logging` calls at INFO level are recorded as a `List LogMsg` trace
  (the single `logging.debug` call is suppressed at the configured INFO level);
- POSIX path semantics for `os.path.join` (forward-slash separator).
-/

namespace BatchEnrollment

/-- A row of a delimited text store: the list of its cell strings. -/
abbrev Row := List String

/-- Python exceptions that the embedded code can raise. -/
inductive PyError where
  | ioError
  | keyError
  | typeError
  deriving Repr, DecidableEq

/-- One pending log entry as built in `get_unenrolled_data`: the Python list
`[image_path, timestamp, id]`.  `image_path` is always a string (joining a
`None` photo field raises before an entry is built); `timestamp` and `id`
may be `None` when the CSV row was short. -/
structure Entry where
  image_path : String
  timestamp : Option String
  id : Option String
  deriving Repr, DecidableEq

/-- Whether a string starts with the POSIX separator `/`
(the `b.startswith(sep)` test of `posixpath.join`). -/
def startsWithSlash (s : String) : Bool :=
  match s.data with
  | [] => false
  | c :: _ => c = '/'

/-- Whether a string ends with the POSIX separator `/`
(the `path.endswith(sep)` test of `posixpath.join`). -/
def endsWithSlash (s : String) : Bool :=
  match s.data.getLast? with
  | none => false
  | some c => c = '/'

/-- `os.path.join(path, b)` on POSIX, two arguments: an absolute second
component discards the first; otherwise the separator is inserted unless the
first component is empty or already ends with it. -/
def osPathJoin (path b : String) : String :=
  if startsWithSlash b then b
  else if path = "" || endsWithSlash path then path ++ b
  else path ++ "/" ++ b

/-- The association pairs `zip(fieldnames, row)` that `csv.DictReader` builds
for one data row, with missing trailing fields filled by the default
`restval = None` and extra cells dropped. -/
def dictOfRow : List String → List String → List (String × Option String)
  | [], _ => []
  | f :: fs, [] => (f, none) :: dictOfRow fs []
  | f :: fs, v :: vs => (f, some v) :: dictOfRow fs vs

section OrderedDict

variable {α β : Type} [DecidableEq α]

/-- Insertion into a Python dict viewed as an insertion-ordered association
list: overwriting an existing key keeps its position, a new key is appended. -/
def insertOD (m : List (α × β)) (k : α) (v : β) : List (α × β) :=
  if k ∈ m.map Prod.fst then
    m.map (fun p => if p.1 = k then (k, v) else p)
  else m ++ [(k, v)]

/-- `dict(pairs)`: left-to-right insertion of the pairs into an empty
insertion-ordered dict. -/
def buildOD (ps : List (α × β)) : List (α × β) :=
  ps.foldl (fun m p => insertOD m p.1 p.2) []

/-- Dict lookup `d[k]` restricted to present keys: the value of the first
pair whose key is `k` (a built dict has at most one). -/
def odLookup (k : α) : List (α × β) → Option β
  | [] => none
  | p :: ps => if k = p.1 then some p.2 else odLookup k ps

/-- The value associated with the last pair carrying key `k`, if any
(specification-side characterisation of dict lookup after a build). -/
def lastVal (k : α) : List (α × β) → Option β
  | [] => none
  | p :: ps =>
    match lastVal k ps with
    | some v => some v
    | none => if p.1 = k then some p.2 else none

/-- Specification-side helper: the elements of a list not in `seen`, in order
of first occurrence. -/
def firstSeenAux : List α → List α → List α
  | _, [] => []
  | seen, a :: l =>
    if a ∈ seen then firstSeenAux seen l else a :: firstSeenAux (a :: seen) l

/-- Specification-side characterisation of key order: the distinct elements
of a list in order of first occurrence. -/
def firstSeen (l : List α) : List α := firstSeenAux [] l

end OrderedDict

/-- `row[key]` on a DictReader row dict: `KeyError` when the key is not a
fieldname, otherwise the stored cell (which is `None` for a short row). -/
def dictGet (d : List (String × Option String)) (k : String) :
    Except PyError (Option String) :=
  match odLookup k d with
  | some v => Except.ok v
  | none => Except.error PyError.keyError

/-- The loop body of `get_unenrolled_data` for one data row: build the row
dict, join the photo path (a `None` photo field makes `os.path.join` raise
`TypeError`), and read `timestamp` and `id`. -/
def readRow (fieldnames : List String) (base_photos_path : String) (row : Row) :
    Except PyError Entry :=
  let d := buildOD (dictOfRow fieldnames row)
  match dictGet d "photo_path" with
  | Except.error e => Except.error e
  | Except.ok none => Except.error PyError.typeError
  | Except.ok (some p) =>
    match dictGet d "timestamp" with
    | Except.error e => Except.error e
    | Except.ok ts =>
      match dictGet d "id" with
      | Except.error e => Except.error e
      | Except.ok cid => Except.ok ⟨osPathJoin base_photos_path p, ts, cid⟩

/-- The `for row in reader` loop of `get_unenrolled_data`: blank rows are
skipped by `DictReader`, any exception aborts the whole read. -/
def readEntries (fieldnames : List String) (base_photos_path : String) :
    List Row → Except PyError (List Entry)
  | [] => Except.ok []
  | r :: rs =>
    if r = [] then readEntries fieldnames base_photos_path rs
    else
      match readRow fieldnames base_photos_path r with
      | Except.error e => Except.error e
      | Except.ok e =>
        match readEntries fieldnames base_photos_path rs with
        | Except.error er => Except.error er
        | Except.ok es => Except.ok (e :: es)

/-- The line `data = dict((log[2], log) for log in data).values()`. -/
def dedupLogs (data : List Entry) : List Entry :=
  (buildOD (data.map (fun log => (log.id, log)))).map Prod.snd

/-- `get_unenrolled_data(details_path, base_photos_path)`: `IOError` when the
store is absent or unreadable; an empty file yields no rows; otherwise the
first row supplies the fieldnames and the remaining rows are read and then
deduplicated by card identifier. -/
def get_unenrolled_data (store : Option (List Row)) (base_photos_path : String) :
    Except PyError (List Entry) :=
  match store with
  | none => Except.error PyError.ioError
  | some [] => Except.ok []
  | some (fieldnames :: body) =>
    match readEntries fieldnames base_photos_path body with
    | Except.error e => Except.error e
    | Except.ok data => Except.ok (dedupLogs data)

/-- The header row `photo_path,timestamp,id` of the pending-queue store. -/
def headerRow : Row := ["photo_path", "timestamp", "id"]

/-- `clear_unenrolled_data(details_path)` rewrites the pending store to just
the header line; this is the content it leaves behind. -/
def clear_unenrolled_data : List Row := [headerRow]

/-- The INFO-level log messages the program emits, one constructor per
`logging.info` call site, carrying the interpolated arguments. -/
inductive LogMsg where
  | programRunning
  | readSuccess
  | discarded (id : Option String)
  | inserting (nric : String) (id : Option String)
  | insertSuccess
  | allIterated
  | noneFound
  | cleared
  | closing
  deriving Repr, DecidableEq

/-- How `csv.writer` renders a cell: `None` becomes the empty string. -/
def csvField : Option String → String
  | none => ""
  | some s => s

/-- `update_full_details(nric, id, path)`: append the single row
`[nric, id]` to the records store and log success. -/
def update_full_details (nric : String) (id : Option String) (records : List Row) :
    List Row × List LogMsg :=
  (records ++ [[nric, csvField id]], [LogMsg.insertSuccess])

/-- The event with which the operator resolves one modal window. -/
inductive Event where
  | submit (nric : String)
  | discard
  | winClosed
  deriving Repr, DecidableEq

/-- Whether an event is a Submit. -/
def isSubmit : Event → Bool
  | Event.submit _ => true
  | _ => false

/-- `load_window(window, log, full_details_path)`: window close and Discard
write nothing; Submit appends via `update_full_details`. Returns the new
records-store content and the log messages emitted. -/
def load_window (event : Event) (log : Entry) (records : List Row) :
    List Row × List LogMsg :=
  match event with
  | Event.winClosed => (records, [LogMsg.discarded log.id])
  | Event.discard => (records, [LogMsg.discarded log.id])
  | Event.submit nric =>
    let p := update_full_details nric log.id records
    (p.1, LogMsg.inserting nric log.id :: p.2)

/-- The `for log in data_list` loop of `enroll`: entry number `i` is resolved
by the operator event `ops i`. -/
def enrollGo (ops : Nat → Event) : List Entry → Nat → List Row → List Row × List LogMsg
  | [], _, records => (records, [])
  | log :: rest, i, records =>
    let p := load_window (ops i) log records
    let q := enrollGo ops rest (i + 1) p.1
    (q.1, p.2 ++ q.2)

/-- `enroll(data_list, full_details_path)`: iterate all entries when the list
is non-empty, otherwise log that no unenrolled persons were found. -/
def enroll (data_list : List Entry) (ops : Nat → Event) (records : List Row) :
    List Row × List LogMsg :=
  if data_list.isEmpty then (records, [LogMsg.noneFound])
  else
    let p := enrollGo ops data_list 0 records
    (p.1, p.2 ++ [LogMsg.allIterated])

/-- The durable stores the workflow touches. -/
structure FS where
  pendingFile : Option (List Row)
  recordsFile : List Row
  deriving Repr, DecidableEq

/-- The observable outcome of one invocation of `main`: final stores, the run
log, the entries presented to the operator, and the uncaught exception if the
run aborted. -/
structure RunOutcome where
  fs : FS
  logFile : List LogMsg
  presented : List Entry
  err : Option PyError
  deriving Repr, DecidableEq

/-- `main()`: read and deduplicate the queue (an exception aborts the run
with the stores untouched), run the review loop, then clear the pending
store. `ops` is the operator: the event resolving the i-th presented
window. -/
def runMain (fs : FS) (base_photos_path : String) (ops : Nat → Event) : RunOutcome :=
  match get_unenrolled_data fs.pendingFile base_photos_path with
  | Except.error e => ⟨fs, [LogMsg.programRunning], [], some e⟩
  | Except.ok data_list =>
    let p := enroll data_list ops fs.recordsFile
    ⟨⟨some clear_unenrolled_data, p.1⟩,
      [LogMsg.programRunning, LogMsg.readSuccess] ++ p.2 ++ [LogMsg.cleared, LogMsg.closing],
      data_list, none⟩

/-- The number of Submit events among `ops i, ops (i+1), ..., ops (i+n-1)`. -/
def numSubmits (ops : Nat → Event) : Nat → Nat → Nat
  | _, 0 => 0
  | i, n + 1 => (if isSubmit (ops i) then 1 else 0) + numSubmits ops (i + 1) n

/-! ### Lemmas about the insertion-ordered dict -/

section OrderedDictLemmas

variable {α β : Type} [DecidableEq α]

lemma odLookup_cons (p : α × β) (ps : List (α × β)) (k : α) :
    odLookup k (p :: ps) = if k = p.1 then some p.2 else odLookup k ps := rfl

lemma map_fst_overwrite (m : List (α × β)) (k : α) (v : β) :
    (m.map (fun p => if p.1 = k then (k, v) else p)).map Prod.fst = m.map Prod.fst := by
  induction m with
  | nil => rfl
  | cons p m ih => by_cases h : p.1 = k <;> simp [h, ih]

lemma map_fst_insertOD (m : List (α × β)) (k : α) (v : β) :
    (insertOD m k v).map Prod.fst =
      if k ∈ m.map Prod.fst then m.map Prod.fst else m.map Prod.fst ++ [k] := by
  unfold insertOD
  by_cases h : k ∈ m.map Prod.fst
  · rw [if_pos h, if_pos h, map_fst_overwrite]
  · rw [if_neg h, if_neg h, List.map_append]
    rfl

lemma lookup_overwrite (m : List (α × β)) (k' k : α) (v : β) :
    odLookup k (m.map (fun p => if p.1 = k' then (k', v) else p)) =
      if k = k' then (if k' ∈ m.map Prod.fst then some v else none)
      else odLookup k m := by
  induction m with
  | nil => by_cases h : k = k' <;> simp [odLookup, h]
  | cons p m ih =>
    simp only [List.map_cons, List.mem_cons]
    by_cases hp : p.1 = k'
    · rw [if_pos hp]
      simp only [odLookup_cons]
      by_cases hk : k = k'
      · rw [if_pos hk, if_pos hk, if_pos (Or.inl hp.symm)]
      · rw [if_neg hk, if_neg hk, ih, if_neg hk,
          if_neg (show ¬k = p.1 from fun h => hk (h.trans hp))]
    · rw [if_neg hp]
      simp only [odLookup_cons]
      by_cases hk : k = p.1
      · rw [if_pos hk, if_pos hk,
          if_neg (show ¬k = k' from fun h => hp (hk ▸ h))]
      · rw [if_neg hk, if_neg hk, ih]
        by_cases hkk : k = k'
        · rw [if_pos hkk, if_pos hkk]
          by_cases hm : k' ∈ m.map Prod.fst
          · rw [if_pos hm, if_pos (Or.inr hm)]
          · have hnm : ¬(k' = p.1 ∨ k' ∈ m.map Prod.fst) := by
              rintro (h | h)
              · exact hp h.symm
              · exact hm h
            rw [if_neg hm, if_neg hnm]
        · rw [if_neg hkk, if_neg hkk]

lemma lookup_append_single (m : List (α × β)) (k' k : α) (v : β)
    (hk' : k' ∉ m.map Prod.fst) :
    odLookup k (m ++ [(k', v)]) = if k = k' then some v else odLookup k m := by
  induction m with
  | nil => simp [odLookup]
  | cons p m ih =>
    have hp : k' ≠ p.1 := fun h => hk' (by simp [List.map_cons, h])
    have hm : k' ∉ m.map Prod.fst := fun h => hk' (by simp [List.map_cons, h])
    rw [List.cons_append, odLookup_cons, odLookup_cons, ih hm]
    by_cases hk : k = p.1
    · rw [if_pos hk, if_neg (show ¬k = k' from fun h => hp (h.symm.trans hk)),
        if_pos hk]
    · rw [if_neg hk, if_neg hk]

lemma lookup_insertOD (m : List (α × β)) (k' k : α) (v : β) :
    odLookup k (insertOD m k' v) = if k = k' then some v else odLookup k m := by
  unfold insertOD
  by_cases h : k' ∈ m.map Prod.fst
  · rw [if_pos h, lookup_overwrite, if_pos h]
  · rw [if_neg h, lookup_append_single m k' k v h]

lemma lastVal_cons (k : α) (p : α × β) (ps : List (α × β)) :
    lastVal k (p :: ps) =
      match lastVal k ps with
      | some v => some v
      | none => if p.1 = k then some p.2 else none := rfl

lemma foldl_insert_lookup (ps : List (α × β)) :
    ∀ (m : List (α × β)) (k : α),
      odLookup k (ps.foldl (fun m p => insertOD m p.1 p.2) m) =
        match lastVal k ps with
        | some v => some v
        | none => odLookup k m := by
  induction ps with
  | nil => intro m k; rfl
  | cons p ps ih =>
    intro m k
    rw [List.foldl_cons, ih, lastVal_cons]
    cases hl : lastVal (β := β) k ps with
    | some v => rfl
    | none =>
      rw [lookup_insertOD]
      by_cases hk : k = p.1
      · rw [if_pos hk, if_pos (show p.1 = k from hk.symm)]
      · rw [if_neg hk, if_neg (show ¬p.1 = k from fun h => hk h.symm)]

lemma firstSeenAux_congr (l : List α) :
    ∀ s₁ s₂ : List α, (∀ a, a ∈ s₁ ↔ a ∈ s₂) →
      firstSeenAux s₁ l = firstSeenAux s₂ l := by
  induction l with
  | nil => intro _ _ _; rfl
  | cons a l ih =>
    intro s₁ s₂ hs
    by_cases h : a ∈ s₁
    · simp only [firstSeenAux, if_pos h, if_pos ((hs a).mp h)]
      exact ih _ _ hs
    · have h₂ : a ∉ s₂ := fun hh => h ((hs a).mpr hh)
      simp only [firstSeenAux, if_neg h, if_neg h₂]
      refine congrArg _ (ih _ _ (fun b => ?_))
      simp [List.mem_cons, hs b]

lemma foldl_insert_keys (ps : List (α × β)) :
    ∀ m : List (α × β),
      (ps.foldl (fun m p => insertOD m p.1 p.2) m).map Prod.fst =
        m.map Prod.fst ++ firstSeenAux (m.map Prod.fst) (ps.map Prod.fst) := by
  induction ps with
  | nil => intro m; simp [firstSeenAux]
  | cons p ps ih =>
    intro m
    rw [List.foldl_cons, ih, map_fst_insertOD]
    by_cases h : p.1 ∈ m.map Prod.fst
    · rw [if_pos h, List.map_cons]
      simp only [firstSeenAux, if_pos h]
    · rw [if_neg h, List.map_cons]
      simp only [firstSeenAux, if_neg h]
      have hcongr : firstSeenAux (m.map Prod.fst ++ [p.1]) (ps.map Prod.fst) =
          firstSeenAux (p.1 :: m.map Prod.fst) (ps.map Prod.fst) :=
        firstSeenAux_congr _ _ _ (fun a => by simp [or_comm])
      rw [hcongr, List.append_assoc, List.singleton_append]

lemma mem_insertOD (m : List (α × β)) (k : α) (v : β) (q : α × β)
    (hq : q ∈ insertOD m k v) : q ∈ m ∨ q = (k, v) := by
  unfold insertOD at hq
  by_cases h : k ∈ m.map Prod.fst
  · rw [if_pos h] at hq
    rcases List.mem_map.mp hq with ⟨p, hp, he⟩
    by_cases hpk : p.1 = k
    · rw [if_pos hpk] at he; right; exact he.symm
    · rw [if_neg hpk] at he; left; rw [← he]; exact hp
  · rw [if_neg h] at hq
    rcases List.mem_append.mp hq with h1 | h1
    · exact Or.inl h1
    · right; simpa using h1

lemma mem_foldl_insert (ps : List (α × β)) :
    ∀ (m : List (α × β)) (q : α × β),
      q ∈ ps.foldl (fun m p => insertOD m p.1 p.2) m → q ∈ m ∨ q ∈ ps := by
  induction ps with
  | nil => intro m q h; exact Or.inl h
  | cons p ps ih =>
    intro m q h
    rw [List.foldl_cons] at h
    rcases ih _ _ h with h1 | h1
    · rcases mem_insertOD _ _ _ _ h1 with h2 | h2
      · exact Or.inl h2
      · exact Or.inr (by simp [h2])
    · exact Or.inr (List.mem_cons_of_mem _ h1)

lemma mem_firstSeenAux (l : List α) :
    ∀ (seen : List α) (a : α), a ∈ firstSeenAux seen l ↔ a ∈ l ∧ a ∉ seen := by
  induction l with
  | nil => intro seen a; simp [firstSeenAux]
  | cons b l ih =>
    intro seen a
    by_cases hb : b ∈ seen
    · rw [firstSeenAux, if_pos hb, ih]
      constructor
      · rintro ⟨h1, h2⟩; exact ⟨List.mem_cons_of_mem _ h1, h2⟩
      · rintro ⟨h1, h2⟩
        rcases List.mem_cons.mp h1 with rfl | h1
        · exact absurd hb h2
        · exact ⟨h1, h2⟩
    · rw [firstSeenAux, if_neg hb]
      constructor
      · intro h
        rcases List.mem_cons.mp h with rfl | h
        · exact ⟨List.mem_cons_self _ _, hb⟩
        · rcases (ih _ _).mp h with ⟨h1, h2⟩
          exact ⟨List.mem_cons_of_mem _ h1, fun hs => h2 (List.mem_cons_of_mem _ hs)⟩
      · rintro ⟨h1, h2⟩
        rcases List.mem_cons.mp h1 with rfl | h1
        · exact List.mem_cons_self _ _
        · by_cases hab : a = b
          · subst hab; exact List.mem_cons_self _ _
          · refine List.mem_cons_of_mem _ ((ih _ _).mpr ⟨h1, fun hc => ?_⟩)
            rcases List.mem_cons.mp hc with h3 | h3
            · exact hab h3
            · exact h2 h3

lemma nodup_firstSeenAux (l : List α) :
    ∀ seen : List α, (firstSeenAux seen l).Nodup := by
  induction l with
  | nil => intro seen; simp [firstSeenAux]
  | cons b l ih =>
    intro seen
    by_cases hb : b ∈ seen
    · rw [firstSeenAux, if_pos hb]; exact ih _
    · rw [firstSeenAux, if_neg hb, List.nodup_cons]
      refine ⟨fun hmem => ?_, ih _⟩
      rcases (mem_firstSeenAux _ _ _).mp hmem with ⟨_, h2⟩
      exact h2 (List.mem_cons_self _ _)

lemma lookup_eq_of_mem (m : List (α × β)) (q : α × β)
    (hnd : (m.map Prod.fst).Nodup) (hq : q ∈ m) : odLookup q.1 m = some q.2 := by
  induction m with
  | nil => cases hq
  | cons p m ih =>
    rw [List.map_cons, List.nodup_cons] at hnd
    rcases List.mem_cons.mp hq with rfl | hq'
    · rw [odLookup_cons, if_pos rfl]
    · have hp : q.1 ≠ p.1 := by
        intro he
        exact hnd.1 (he ▸ List.mem_map_of_mem Prod.fst hq')
      rw [odLookup_cons, if_neg hp]
      exact ih hnd.2 hq'

lemma buildOD_keys (ps : List (α × β)) :
    (buildOD ps).map Prod.fst = firstSeen (ps.map Prod.fst) := by
  rw [buildOD, foldl_insert_keys]
  rfl

lemma buildOD_keys_nodup (ps : List (α × β)) :
    ((buildOD ps).map Prod.fst).Nodup := by
  rw [buildOD_keys]; exact nodup_firstSeenAux _ _

lemma buildOD_lookup (ps : List (α × β)) (k : α) :
    odLookup k (buildOD ps) = lastVal k ps := by
  rw [buildOD, foldl_insert_lookup]
  cases lastVal (β := β) k ps <;> rfl

lemma mem_buildOD (ps : List (α × β)) (q : α × β) (hq : q ∈ buildOD ps) : q ∈ ps := by
  rcases mem_foldl_insert ps [] q hq with h | h
  · cases h
  · exact h

end OrderedDictLemmas

/-! ### Lemmas about the deduplication pass -/

lemma mem_pairs_id (data : List Entry) (q : Option String × Entry)
    (hq : q ∈ data.map (fun log => (log.id, log))) : q.1 = q.2.id ∧ q.2 ∈ data := by
  rcases List.mem_map.mp hq with ⟨e, he, rfl⟩
  exact ⟨rfl, he⟩

lemma dedupLogs_map_id (data : List Entry) :
    (dedupLogs data).map Entry.id = firstSeen (data.map Entry.id) := by
  unfold dedupLogs
  rw [List.map_map]
  have h1 : (buildOD (data.map fun log => (log.id, log))).map (Entry.id ∘ Prod.snd) =
      (buildOD (data.map fun log => (log.id, log))).map Prod.fst := by
    apply List.map_congr_left
    intro q hq
    have h2 := mem_pairs_id data q (mem_buildOD _ _ hq)
    simp [Function.comp, h2.1.symm]
  rw [h1, buildOD_keys, List.map_map]
  rfl

lemma dedupLogs_nodup (data : List Entry) : ((dedupLogs data).map Entry.id).Nodup := by
  rw [dedupLogs_map_id]
  exact nodup_firstSeenAux _ _

lemma dedupLogs_mem_id (data : List Entry) (k : Option String) :
    k ∈ (dedupLogs data).map Entry.id ↔ k ∈ data.map Entry.id := by
  rw [dedupLogs_map_id, firstSeen, mem_firstSeenAux]
  simp

lemma lastVal_map_pairs (data : List Entry) (k : Option String) :
    lastVal k (data.map (fun e => (e.id, e))) =
      (data.filter (fun x => x.id = k)).getLast? := by
  induction data with
  | nil => rfl
  | cons e data ih =>
    rw [List.map_cons, lastVal_cons, ih]
    by_cases h : e.id = k
    · rw [List.filter_cons_of_pos (by simpa using h), if_pos h]
      cases hg : (data.filter (fun x => x.id = k)).getLast? with
      | none =>
        rw [List.getLast?_eq_none_iff] at hg
        rw [hg]
        rfl
      | some v =>
        rw [List.getLast?_cons, hg]
        rfl
    · rw [List.filter_cons_of_neg (by simpa using h), if_neg h]
      cases hg : (data.filter (fun x => x.id = k)).getLast? <;> rfl

lemma dedupLogs_last_wins (data : List Entry) (e : Entry) (he : e ∈ dedupLogs data) :
    (data.filter (fun x => x.id = e.id)).getLast? = some e := by
  unfold dedupLogs at he
  rcases List.mem_map.mp he with ⟨q, hq, rfl⟩
  have hqp := mem_pairs_id data q (mem_buildOD _ _ hq)
  have hlook : odLookup q.1 (buildOD (data.map fun log => (log.id, log))) = some q.2 :=
    lookup_eq_of_mem _ _ (buildOD_keys_nodup _) hq
  rw [buildOD_lookup] at hlook
  have hlv : lastVal q.1 (data.map fun e => (e.id, e)) = some q.2 := hlook
  rw [lastVal_map_pairs, hqp.1] at hlv
  exact hlv

/-! ### Unfolding equations for the review loop and the driver -/

lemma enrollGo_cons_fst (ops : Nat → Event) (e : Entry) (es : List Entry) (i : Nat)
    (records : List Row) :
    (enrollGo ops (e :: es) i records).1 =
      (enrollGo ops es (i + 1) (load_window (ops i) e records).1).1 := rfl

lemma enrollGo_cons_snd (ops : Nat → Event) (e : Entry) (es : List Entry) (i : Nat)
    (records : List Row) :
    (enrollGo ops (e :: es) i records).2 =
      (load_window (ops i) e records).2 ++
        (enrollGo ops es (i + 1) (load_window (ops i) e records).1).2 := rfl

lemma enroll_nonempty (e : Entry) (es : List Entry) (ops : Nat → Event)
    (records : List Row) :
    enroll (e :: es) ops records =
      ((enrollGo ops (e :: es) 0 records).1,
        (enrollGo ops (e :: es) 0 records).2 ++ [LogMsg.allIterated]) := rfl

lemma numSubmits_succ (ops : Nat → Event) (i n : Nat) :
    numSubmits ops i (n + 1) =
      (if isSubmit (ops i) then 1 else 0) + numSubmits ops (i + 1) n := rfl

lemma runMain_error (fs : FS) (base : String) (ops : Nat → Event) (e : PyError)
    (hget : get_unenrolled_data fs.pendingFile base = Except.error e) :
    runMain fs base ops = ⟨fs, [LogMsg.programRunning], [], some e⟩ := by
  unfold runMain
  rw [hget]

lemma runMain_ok (fs : FS) (base : String) (ops : Nat → Event) (data_list : List Entry)
    (hget : get_unenrolled_data fs.pendingFile base = Except.ok data_list) :
    runMain fs base ops =
      ⟨⟨some clear_unenrolled_data, (enroll data_list ops fs.recordsFile).1⟩,
        [LogMsg.programRunning, LogMsg.readSuccess] ++
          (enroll data_list ops fs.recordsFile).2 ++ [LogMsg.cleared, LogMsg.closing],
        data_list, none⟩ := by
  unfold runMain
  rw [hget]

/-! ### Accounting lemmas for the review loop -/

lemma enrollGo_append (ops : Nat → Event) (es : List Entry) :
    ∀ (i : Nat) (records : List Row),
      ∃ extra : List Row,
        (enrollGo ops es i records).1 = records ++ extra ∧
        extra.length = numSubmits ops i es.length := by
  induction es with
  | nil =>
    intro i records
    exact ⟨[], (List.append_nil _).symm, rfl⟩
  | cons e es ih =>
    intro i records
    cases hop : ops i with
    | submit nric =>
      have hlw : (load_window (ops i) e records).1 =
          records ++ [[nric, csvField e.id]] := by rw [hop]; rfl
      rcases ih (i + 1) (records ++ [[nric, csvField e.id]]) with ⟨extra, h1, h2⟩
      refine ⟨[[nric, csvField e.id]] ++ extra, ?_, ?_⟩
      · rw [enrollGo_cons_fst, hlw, h1, List.append_assoc]
      · rw [List.length_cons, numSubmits_succ, hop, List.length_append, h2]
        simp [isSubmit]
    | discard =>
      have hlw : (load_window (ops i) e records).1 = records := by rw [hop]; rfl
      rcases ih (i + 1) records with ⟨extra, h1, h2⟩
      refine ⟨extra, ?_, ?_⟩
      · rw [enrollGo_cons_fst, hlw, h1]
      · rw [List.length_cons, numSubmits_succ, hop, h2]
        simp [isSubmit]
    | winClosed =>
      have hlw : (load_window (ops i) e records).1 = records := by rw [hop]; rfl
      rcases ih (i + 1) records with ⟨extra, h1, h2⟩
      refine ⟨extra, ?_, ?_⟩
      · rw [enrollGo_cons_fst, hlw, h1]
      · rw [List.length_cons, numSubmits_succ, hop, h2]
        simp [isSubmit]

lemma enroll_records (data_list : List Entry) (ops : Nat → Event) (records : List Row) :
    ∃ extra : List Row,
      (enroll data_list ops records).1 = records ++ extra ∧
      extra.length = numSubmits ops 0 data_list.length := by
  cases data_list with
  | nil => exact ⟨[], (List.append_nil _).symm, rfl⟩
  | cons e es =>
    rw [enroll_nonempty]
    exact enrollGo_append ops (e :: es) 0 records

lemma numSubmits_le (ops : Nat → Event) : ∀ n i : Nat, numSubmits ops i n ≤ n := by
  intro n
  induction n with
  | zero => intro i; exact Nat.le_refl 0
  | succ n ih =>
    intro i
    rw [numSubmits_succ]
    have h1 := ih (i + 1)
    by_cases h : isSubmit (ops i) = true
    · rw [if_pos h]; omega
    · rw [if_neg h]; omega

lemma cleared_not_mem_load_window (ev : Event) (e : Entry) (records : List Row) :
    LogMsg.cleared ∉ (load_window ev e records).2 := by
  cases ev <;> simp [load_window, update_full_details]

lemma cleared_not_mem_enrollGo (ops : Nat → Event) (es : List Entry) :
    ∀ (i : Nat) (records : List Row),
      LogMsg.cleared ∉ (enrollGo ops es i records).2 := by
  induction es with
  | nil =>
    intro i records hmem
    simp [enrollGo] at hmem
  | cons e es ih =>
    intro i records hmem
    rw [enrollGo_cons_snd] at hmem
    rcases List.mem_append.mp hmem with h1 | h1
    · exact cleared_not_mem_load_window (ops i) e records h1
    · exact ih (i + 1) _ h1

lemma enroll_msgs (data_list : List Entry) (ops : Nat → Event) (records : List Row) :
    LogMsg.cleared ∉ (enroll data_list ops records).2 ∧
      (LogMsg.allIterated ∈ (enroll data_list ops records).2 ∨
        LogMsg.noneFound ∈ (enroll data_list ops records).2) := by
  cases data_list with
  | nil =>
    constructor
    · simp [enroll]
    · right; simp [enroll]
  | cons e es =>
    rw [enroll_nonempty]
    constructor
    · intro hmem
      rcases List.mem_append.mp hmem with h1 | h1
      · exact cleared_not_mem_enrollGo ops (e :: es) 0 records h1
      · simp at h1
    · left
      exact List.mem_append.mpr (Or.inr (by simp))

/-! ### Read pass under the canonical header -/

lemma readRow_canon (base a : String) (rest : List String) :
    readRow headerRow base (a :: rest) =
      Except.ok ⟨osPathJoin base a, rest.get? 0, rest.get? 1⟩ := by
  cases rest with
  | nil => rfl
  | cons b rest2 =>
    cases rest2 with
    | nil => rfl
    | cons c rest3 => rfl

lemma readEntries_canon (base : String) (body : List Row) :
    ∃ out : List Entry, readEntries headerRow base body = Except.ok out := by
  induction body with
  | nil => exact ⟨[], rfl⟩
  | cons r rs ih =>
    rcases ih with ⟨out, hout⟩
    by_cases h : r = []
    · refine ⟨out, ?_⟩
      simp only [readEntries, if_pos h]
      exact hout
    · cases r with
      | nil => exact absurd rfl h
      | cons a rest =>
        refine ⟨⟨osPathJoin base a, rest.get? 0, rest.get? 1⟩ :: out, ?_⟩
        simp only [readEntries, if_neg h]
        rw [readRow_canon, hout]

lemma get_canon (base : String) (body : List Row) :
    ∃ out : List Entry,
      get_unenrolled_data (some (headerRow :: body)) base = Except.ok out := by
  rcases readEntries_canon base body with ⟨raw, hraw⟩
  refine ⟨dedupLogs raw, ?_⟩
  simp only [get_unenrolled_data]
  rw [hraw]

/-! ### Claim theorems (local operations) -/

/-- C1: for every pending-queue input, the deduplicated output of the Queue
Reader keeps exactly one entry per distinct card identifier, the retained
entry is the one appearing last in the input, and distinct identifiers are
emitted in first-seen order; the Queue Reader applies exactly this dedup to
whatever the read pass produced. -/
theorem C1_queue_reader_dedup :
    (∀ data : List Entry,
        (dedupLogs data).map Entry.id = firstSeen (data.map Entry.id) ∧
        ((dedupLogs data).map Entry.id).Nodup ∧
        (∀ k : Option String, k ∈ (dedupLogs data).map Entry.id ↔ k ∈ data.map Entry.id) ∧
        (∀ e ∈ dedupLogs data, (data.filter (fun x => x.id = e.id)).getLast? = some e)) ∧
    (∀ (fieldnames : List String) (body : List Row) (base : String) (raw : List Entry),
        readEntries fieldnames base body = Except.ok raw →
        get_unenrolled_data (some (fieldnames :: body)) base = Except.ok (dedupLogs raw)) := by
  constructor
  · intro data
    exact ⟨dedupLogs_map_id data, dedupLogs_nodup data, dedupLogs_mem_id data,
      fun e he => dedupLogs_last_wins data e he⟩
  · intro fieldnames body base raw h
    simp only [get_unenrolled_data]
    rw [h]

/-- C1 witness: on a concrete queue holding two rows for card `C100` (the
second one latest) and one for `C200`, the retained `C100` entry is the last
row, and the Queue Reader returns the deduplication of the raw read. -/
theorem C1_queue_reader_dedup_witness :
    (([⟨"pa", some "T1", some "C100"⟩, ⟨"pb", some "T", some "C200"⟩,
        ⟨"pc", some "T2", some "C100"⟩] : List Entry).filter
          (fun x => x.id = Entry.id ⟨"pc", some "T2", some "C100"⟩)).getLast? =
        some ⟨"pc", some "T2", some "C100"⟩ ∧
      get_unenrolled_data (some [headerRow, ["a.jpg", "T1", "C100"]]) "" =
        Except.ok (dedupLogs [⟨"a.jpg", some "T1", some "C100"⟩]) :=
  ⟨(C1_queue_reader_dedup.1 _).2.2.2 ⟨"pc", some "T2", some "C100"⟩ (by decide),
    C1_queue_reader_dedup.2 headerRow [["a.jpg", "T1", "C100"]] ""
      [⟨"a.jpg", some "T1", some "C100"⟩] (by rfl)⟩

/-- C3: resolving an entry by Submit with any operator-supplied identifier
string appends exactly one row `(identifier, card id)` to the records store;
the store gains exactly one row and the prior rows are unchanged. -/
theorem C3_submit_appends_one_row :
    ∀ (nric cid : String) (e : Entry) (records : List Row), e.id = some cid →
      (load_window (Event.submit nric) e records).1 = records ++ [[nric, cid]] ∧
      (load_window (Event.submit nric) e records).1.length = records.length + 1 ∧
      (load_window (Event.submit nric) e records).1.take records.length = records := by
  intro nric cid e records h
  have h1 : (load_window (Event.submit nric) e records).1 = records ++ [[nric, cid]] := by
    simp [load_window, update_full_details, h, csvField]
  refine ⟨h1, ?_, ?_⟩
  · rw [h1, List.length_append]
    rfl
  · rw [h1, List.take_left]

/-- C3 witness: submitting the empty identifier for a concrete entry over a
one-row store appends exactly the row `["", "C9"]`. -/
theorem C3_submit_appends_one_row_witness :
    (load_window (Event.submit "") ⟨"p", some "T", some "C9"⟩ [["x", "C1"]]).1 =
        [["x", "C1"]] ++ [[("" : String), "C9"]] ∧
      (load_window (Event.submit "") ⟨"p", some "T", some "C9"⟩ [["x", "C1"]]).1.length =
        ([["x", "C1"]] : List Row).length + 1 ∧
      (load_window (Event.submit "") ⟨"p", some "T", some "C9"⟩
          [["x", "C1"]]).1.take ([["x", "C1"]] : List Row).length = [["x", "C1"]] :=
  C3_submit_appends_one_row "" "C9" ⟨"p", some "T", some "C9"⟩ [["x", "C1"]] rfl

/-- C4: resolving an entry by Discard, or by closing the window without
submitting, leaves the records store exactly as it was: zero rows appended. -/
theorem C4_discard_appends_nothing :
    ∀ (e : Entry) (records : List Row),
      (load_window Event.discard e records).1 = records ∧
      (load_window Event.winClosed e records).1 = records := by
  intro e records
  exact ⟨rfl, rfl⟩

/-- C5: the Record Appender never checks for an existing association: even
when the store already holds a row for card id `c`, a submit still appends a
new row, and two submits for the same card id leave two coexisting rows. -/
theorem C5_append_only_no_uniqueness_check :
    ∀ (records : List Row) (x nric1 nric2 c : String),
      [x, c] ∈ records →
      (update_full_details nric1 (some c) records).1 = records ++ [[nric1, c]] ∧
      (update_full_details nric2 (some c)
          (update_full_details nric1 (some c) records).1).1 =
        records ++ [[nric1, c], [nric2, c]] := by
  intro records x nric1 nric2 c _
  refine ⟨rfl, ?_⟩
  simp [update_full_details, csvField]

/-- C5 witness: a store already holding a row for card `C1` still gains a new
row on each of two submits for `C1`. -/
theorem C5_append_only_no_uniqueness_check_witness :
    (update_full_details "n1" (some "C1") [["y", "C1"]]).1 =
        [["y", "C1"]] ++ [["n1", "C1"]] ∧
      (update_full_details "n2" (some "C1")
          (update_full_details "n1" (some "C1") [["y", "C1"]]).1).1 =
        [["y", "C1"]] ++ [["n1", "C1"], ["n2", "C1"]] :=
  C5_append_only_no_uniqueness_check [["y", "C1"]] "y" "n1" "n2" "C1" (by decide)

/-- C10: the resolved photo path of a pending entry is the POSIX path-join of
the base photo directory with the photo reference from the row, and when that
reference is absolute the join discards the base directory, returning the
reference verbatim. -/
theorem C10_photo_path_join :
    (∀ base p t c : String,
        get_unenrolled_data (some [headerRow, [p, t, c]]) base =
          Except.ok [⟨osPathJoin base p, some t, some c⟩]) ∧
    (∀ base p : String, startsWithSlash p = true → osPathJoin base p = p) := by
  constructor
  · intro base p t c
    rfl
  · intro base p h
    unfold osPathJoin
    rw [if_pos h]

/-- C10 witness: with base directory `/base` and the absolute photo reference
`/abs/x.jpg`, the entry resolves to `/abs/x.jpg` verbatim. -/
theorem C10_photo_path_join_witness :
    get_unenrolled_data (some [headerRow, [("/abs/x.jpg" : String), "T", "C"]]) "/base" =
        Except.ok [⟨osPathJoin "/base" "/abs/x.jpg", some "T", some "C"⟩] ∧
      osPathJoin "/base" "/abs/x.jpg" = "/abs/x.jpg" :=
  ⟨C10_photo_path_join.1 "/base" "/abs/x.jpg" "T" "C",
    C10_photo_path_join.2 "/base" "/abs/x.jpg" (by decide)⟩

/-! ### Claim theorems (whole-run properties) -/

/-- C2: after any full run (no abort), the pending store is exactly
header-only, the records store gained one row per Submit and none per
Discard — between `0` and `N` rows for `N` presented entries — and the clear
step ran exactly once, after the review loop completed. -/
theorem C2_full_run_invariants :
    ∀ (fs : FS) (base : String) (ops : Nat → Event),
      (runMain fs base ops).err = none →
      (runMain fs base ops).fs.pendingFile = some [headerRow] ∧
      (∃ extra : List Row,
          (runMain fs base ops).fs.recordsFile = fs.recordsFile ++ extra ∧
          extra.length = numSubmits ops 0 (runMain fs base ops).presented.length ∧
          extra.length ≤ (runMain fs base ops).presented.length) ∧
      (∃ pre : List LogMsg,
          (runMain fs base ops).logFile = pre ++ [LogMsg.cleared, LogMsg.closing] ∧
          LogMsg.cleared ∉ pre ∧
          (LogMsg.allIterated ∈ pre ∨ LogMsg.noneFound ∈ pre)) := by
  intro fs base ops herr
  cases hget : get_unenrolled_data fs.pendingFile base with
  | error e =>
    rw [runMain_error fs base ops e hget] at herr
    simp at herr
  | ok data_list =>
    rw [runMain_ok fs base ops data_list hget]
    refine ⟨rfl, ?_, ?_⟩
    · rcases enroll_records data_list ops fs.recordsFile with ⟨extra, h1, h2⟩
      exact ⟨extra, h1, h2, h2 ▸ numSubmits_le ops data_list.length 0⟩
    · refine ⟨[LogMsg.programRunning, LogMsg.readSuccess] ++
        (enroll data_list ops fs.recordsFile).2, rfl, ?_, ?_⟩
      · intro hmem
        rcases List.mem_append.mp hmem with h1 | h1
        · simp at h1
        · exact (enroll_msgs data_list ops fs.recordsFile).1 h1
      · rcases (enroll_msgs data_list ops fs.recordsFile).2 with h1 | h1
        · exact Or.inl (List.mem_append.mpr (Or.inr h1))
        · exact Or.inr (List.mem_append.mpr (Or.inr h1))

/-- C2 witness: a concrete run over a queue with two distinct entries where
the operator submits the first and discards the second. -/
theorem C2_full_run_invariants_witness :
    (runMain ⟨some [headerRow, ["a.jpg", "T1", "C1"], ["b.jpg", "T2", "C2"]], []⟩ ""
          (fun i => if i = 0 then Event.submit "S1" else Event.discard)).err = none ∧
      (runMain ⟨some [headerRow, ["a.jpg", "T1", "C1"], ["b.jpg", "T2", "C2"]], []⟩ ""
          (fun i => if i = 0 then Event.submit "S1" else Event.discard)).fs.pendingFile =
        some [headerRow] :=
  ⟨rfl,
    (C2_full_run_invariants ⟨some [headerRow, ["a.jpg", "T1", "C1"], ["b.jpg", "T2", "C2"]], []⟩
        "" (fun i => if i = 0 then Event.submit "S1" else Event.discard) rfl).1⟩

/-- C6 counterexample: a pending queue whose single data row is missing the
card-identifier field does not make the read pass fail — the row is read
with a null placeholder and an entry sequence is returned, contradicting the
claimed fatal error. -/
theorem C6_counterexample_short_row_read_ok :
    get_unenrolled_data (some [headerRow, ["a.jpg", "T1"]]) "p" =
      Except.ok [⟨"p/a.jpg", some "T1", none⟩] := rfl

/-- C6 amended: under the canonical header a data row missing trailing
fields (timestamp or card identifier) is not fatal: the read pass always
succeeds, filling the missing fields with null placeholders; a read pass
fails with an error only when an expected column is absent from the header
row itself. -/
theorem C6_short_row_not_fatal :
    (∀ (body : List Row) (base : String),
        ∃ out : List Entry,
          get_unenrolled_data (some (headerRow :: body)) base = Except.ok out) ∧
    (∀ base p t : String,
        get_unenrolled_data (some [headerRow, [p, t]]) base =
          Except.ok [⟨osPathJoin base p, some t, none⟩]) ∧
    get_unenrolled_data (some [["photo_path", "timestamp"], ["a.jpg", "T1", "C1"]]) "p" =
      Except.error PyError.keyError := by
  refine ⟨?_, ?_, ?_⟩
  · intro body base
    exact get_canon base body
  · intro base p t
    rfl
  · rfl

/-- C7: when the pending-queue store is absent or unreadable the run aborts
with the read error before any processing: no entry is presented, neither
store is modified, and no outcome beyond the startup line is logged. -/
theorem C7_absent_store_aborts :
    ∀ (fs : FS) (base : String) (ops : Nat → Event),
      fs.pendingFile = none →
      (runMain fs base ops).err = some PyError.ioError ∧
      (runMain fs base ops).fs = fs ∧
      (runMain fs base ops).presented = [] ∧
      (runMain fs base ops).logFile = [LogMsg.programRunning] := by
  intro fs base ops h
  have hget : get_unenrolled_data fs.pendingFile base = Except.error PyError.ioError := by
    rw [h]; rfl
  rw [runMain_error fs base ops PyError.ioError hget]
  exact ⟨rfl, rfl, rfl, rfl⟩

/-- C7 witness: a run over an absent pending store with a nonempty records
store aborts and touches nothing. -/
theorem C7_absent_store_aborts_witness :
    (runMain ⟨none, [["n", "C1"]]⟩ "p" (fun _ => Event.discard)).err =
        some PyError.ioError ∧
      (runMain ⟨none, [["n", "C1"]]⟩ "p" (fun _ => Event.discard)).fs =
        ⟨none, [["n", "C1"]]⟩ ∧
      (runMain ⟨none, [["n", "C1"]]⟩ "p" (fun _ => Event.discard)).presented = [] ∧
      (runMain ⟨none, [["n", "C1"]]⟩ "p" (fun _ => Event.discard)).logFile =
        [LogMsg.programRunning] :=
  C7_absent_store_aborts ⟨none, [["n", "C1"]]⟩ "p" (fun _ => Event.discard) rfl

/-- C8: on a header-only pending queue the review loop presents zero entries,
appends nothing to the records store, logs that no entries were found, and
the clear step still runs, leaving the pending store header-only. -/
theorem C8_empty_queue_noop_but_cleared :
    ∀ (fs : FS) (base : String) (ops : Nat → Event),
      fs.pendingFile = some [headerRow] →
      (runMain fs base ops).presented = [] ∧
      (runMain fs base ops).fs.recordsFile = fs.recordsFile ∧
      LogMsg.noneFound ∈ (runMain fs base ops).logFile ∧
      LogMsg.cleared ∈ (runMain fs base ops).logFile ∧
      (runMain fs base ops).fs.pendingFile = some [headerRow] ∧
      (runMain fs base ops).err = none := by
  intro fs base ops h
  have hget : get_unenrolled_data fs.pendingFile base = Except.ok ([] : List Entry) := by
    rw [h]; rfl
  rw [runMain_ok fs base ops [] hget]
  refine ⟨rfl, rfl, ?_, ?_, rfl, rfl⟩
  · simp [enroll, enrollGo]
  · simp

/-- C8 witness: a concrete header-only queue with a one-row records store. -/
theorem C8_empty_queue_noop_but_cleared_witness :
    (runMain ⟨some [headerRow], [["n", "C1"]]⟩ "p" (fun _ => Event.discard)).presented = [] ∧
      (runMain ⟨some [headerRow], [["n", "C1"]]⟩ "p" (fun _ => Event.discard)).fs.recordsFile =
        (⟨some [headerRow], [["n", "C1"]]⟩ : FS).recordsFile ∧
      LogMsg.noneFound ∈
        (runMain ⟨some [headerRow], [["n", "C1"]]⟩ "p" (fun _ => Event.discard)).logFile ∧
      LogMsg.cleared ∈
        (runMain ⟨some [headerRow], [["n", "C1"]]⟩ "p" (fun _ => Event.discard)).logFile ∧
      (runMain ⟨some [headerRow], [["n", "C1"]]⟩ "p" (fun _ => Event.discard)).fs.pendingFile =
        some [headerRow] ∧
      (runMain ⟨some [headerRow], [["n", "C1"]]⟩ "p" (fun _ => Event.discard)).err = none :=
  C8_empty_queue_noop_but_cleared ⟨some [headerRow], [["n", "C1"]]⟩ "p"
    (fun _ => Event.discard) rfl

/-- C9: running the workflow a second time immediately after a completed run,
with no new pending entries added, presents zero entries, appends nothing to
the records store, and leaves the pending store header-only. -/
theorem C9_second_run_idempotent :
    ∀ (fs : FS) (base : String) (ops1 ops2 : Nat → Event),
      (runMain fs base ops1).err = none →
      (runMain (runMain fs base ops1).fs base ops2).presented = [] ∧
      (runMain (runMain fs base ops1).fs base ops2).fs.recordsFile =
        (runMain fs base ops1).fs.recordsFile ∧
      (runMain (runMain fs base ops1).fs base ops2).fs.pendingFile = some [headerRow] ∧
      (runMain (runMain fs base ops1).fs base ops2).err = none := by
  intro fs base ops1 ops2 herr
  cases hget : get_unenrolled_data fs.pendingFile base with
  | error e =>
    rw [runMain_error fs base ops1 e hget] at herr
    simp at herr
  | ok dl =>
    rw [runMain_ok fs base ops1 dl hget]
    have hget2 : get_unenrolled_data
        (some clear_unenrolled_data) base = Except.ok ([] : List Entry) := rfl
    rw [runMain_ok _ base ops2 [] hget2]
    exact ⟨rfl, rfl, rfl, rfl⟩

/-- C9 witness: after a first run that submits the single queued entry, the
second run presents nothing and changes nothing. -/
theorem C9_second_run_idempotent_witness :
    (runMain (runMain ⟨some [headerRow, ["a.jpg", "T1", "C1"]], []⟩ ""
            (fun _ => Event.submit "S1")).fs "" (fun _ => Event.discard)).presented = [] ∧
      (runMain (runMain ⟨some [headerRow, ["a.jpg", "T1", "C1"]], []⟩ ""
            (fun _ => Event.submit "S1")).fs "" (fun _ => Event.discard)).fs.recordsFile =
        (runMain ⟨some [headerRow, ["a.jpg", "T1", "C1"]], []⟩ ""
            (fun _ => Event.submit "S1")).fs.recordsFile ∧
      (runMain (runMain ⟨some [headerRow, ["a.jpg", "T1", "C1"]], []⟩ ""
            (fun _ => Event.submit "S1")).fs "" (fun _ => Event.discard)).fs.pendingFile =
        some [headerRow] ∧
      (runMain (runMain ⟨some [headerRow, ["a.jpg", "T1", "C1"]], []⟩ ""
            (fun _ => Event.submit "S1")).fs "" (fun _ => Event.discard)).err = none :=
  C9_second_run_idempotent ⟨some [headerRow, ["a.jpg", "T1", "C1"]], []⟩ ""
    (fun _ => Event.submit "S1") (fun _ => Event.discard) rfl

end BatchEnrollment
